import Mathlib

/-!
Verification of the connection/session/room coordinator of the Ollama chat
application (backend `app.py`).

The backend keeps two module-level Python dicts:
  `active_users : sid -> {username, room, joined_at}` (the session registry) and
  `chat_rooms   : room -> list of sids` (the room directory, pre-seeded with
  "general", "tech" and "random").

We embed dicts as insertion-ordered association lists (Python 3.7+ dicts are
insertion ordered; assignment to an existing key keeps its position, a new key
is appended, `del` removes the entry), connection ids (`request.sid`) as `Nat`,
and the wall clock (`datetime.now().isoformat()`) as an explicit `String`
parameter of each handler.  Socket-IO side effects (`emit`) are modelled as a
returned list of events, each tagged with its destination.
-/

namespace OllamaChat

/-! ## Python string primitives -/

/-- Pattern `pat` occurs at the head of `s` (helper for substring search). -/
def startsWithL : List Char → List Char → Bool
  | _, [] => true
  | [], _ :: _ => false
  | c :: cs, p :: ps => c == p && startsWithL cs ps

/-- Python `pat in s` on character lists: `pat` occurs somewhere in `s`. -/
def containsSub (pat : List Char) : List Char → Bool
  | [] => startsWithL [] pat
  | c :: rest => startsWithL (c :: rest) pat || containsSub pat rest

/-- Python `s.replace(pat, rep)` (replaces every non-overlapping occurrence,
left to right, case sensitively).  Fuelled so that the kernel can evaluate it;
`fuel = s.length` always suffices because each step consumes at least one
character of `s` when `pat` is non-empty, and the backend only calls this with
the non-empty pattern `"@ai"`. -/
def replaceAllFuel (rep pat : List Char) : Nat → List Char → List Char
  | 0, s => s
  | _ + 1, [] => []
  | fuel + 1, c :: rest =>
    if pat.isEmpty then c :: rest
    else if startsWithL (c :: rest) pat then
      rep ++ replaceAllFuel rep pat fuel (List.drop (pat.length - 1) rest)
    else c :: replaceAllFuel rep pat fuel rest

/-- Python `s.replace(pat, rep)` on `String`. -/
def pyReplace (s pat rep : String) : String :=
  String.mk (replaceAllFuel rep.data pat.data s.data.length s.data)

/-- Python `s.strip()` on character lists: drop whitespace from both ends. -/
def pyStripL (s : List Char) : List Char :=
  ((s.dropWhile Char.isWhitespace).reverse.dropWhile Char.isWhitespace).reverse

/-- Python `s.strip()` on `String`. -/
def pyStrip (s : String) : String :=
  String.mk (pyStripL s.data)

/-- Python `s.lower()` on `String` (ASCII, as used by the backend). -/
def pyLower (s : String) : String :=
  String.mk (s.data.map Char.toLower)

/-- Python `pat in s` on `String`. -/
def pyContains (s pat : String) : Bool :=
  containsSub pat.data s.data

/-- Python `s.startswith(pat)` on `String`. -/
def pyStartsWith (s pat : String) : Bool :=
  startsWithL s.data pat.data

/-! ## Python dicts as insertion-ordered association lists -/

/-- Dict lookup `d.get(k)` / `d[k]`: value of the first binding of `k`. -/
def alookup {α β : Type} [DecidableEq α] : List (α × β) → α → Option β
  | [], _ => none
  | (k, v) :: rest, a => if k = a then some v else alookup rest a

/-- Dict assignment `d[k] = v`: replace the value of an existing key in
place, or append a new binding at the end (Python insertion order). -/
def aupdate {α β : Type} [DecidableEq α] : List (α × β) → α → β → List (α × β)
  | [], a, b => [(a, b)]
  | (k, v) :: rest, a, b =>
    if k = a then (k, b) :: rest else (k, v) :: aupdate rest a b

/-- Dict deletion `del d[k]`: remove the first binding of `k`. -/
def aerase {α β : Type} [DecidableEq α] : List (α × β) → α → List (α × β)
  | [], _ => []
  | (k, v) :: rest, a => if k = a then rest else (k, v) :: aerase rest a

/-! ## Data model -/

/-- One entry of `active_users`: the dict
`{'username': ..., 'room': ..., 'joined_at': ...}` stored per `request.sid`. -/
structure Session where
  username : String
  room : String
  joined_at : String
deriving DecidableEq, Repr

/-- The two module-level dicts of `app.py`. -/
structure ServerState where
  active_users : List (Nat × Session)
  chat_rooms : List (String × List Nat)
deriving DecidableEq, Repr

/-- The module-level initial state:
`active_users = {}`, `chat_rooms = {'general': [], 'tech': [], 'random': []}`. -/
def initialState : ServerState :=
  ⟨[], [("general", []), ("tech", []), ("random", [])]⟩

/-- One entry of the payload of `rooms_list` / `GET /rooms`:
`{'user_count': ..., 'users': [...]}`. -/
structure RoomsEntry where
  user_count : Nat
  users : List String
deriving DecidableEq, Repr

/-- Destination of an `emit` call. -/
inductive Dest where
  | sender
  | room (name : String)
  | roomExceptSelf (name : String)
deriving DecidableEq, Repr

/-- Socket-IO events emitted by the backend. -/
inductive Event where
  | statusEv (msg : String)
  | errorEv (msg : String)
  | chatEv (username message timestamp mtype : String)
  | userJoined (username timestamp : String)
  | userLeft (username timestamp : String)
  | roomInfo (room : String) (users : List String) (user_count : Nat)
  | roomsList (rooms : List (String × RoomsEntry))
deriving DecidableEq, Repr

/-- An AI generation job handed to a background thread:
the target room and the prompt. -/
structure AIJob where
  room : String
  prompt : String
deriving DecidableEq, Repr

/-! ## Handlers -/

/-- The comprehension
`[active_users[sid]['username'] for sid in user_sids if sid in active_users]`
(also written as a for-loop in `handle_join`). -/
def collectUsers (active : List (Nat × Session)) (sids : List Nat) : List String :=
  sids.filterMap fun sid => (alookup active sid).map Session.username

/-- The guarded removal
`if room in chat_rooms and request.sid in chat_rooms[room]:
chat_rooms[room].remove(request.sid)` used by both `handle_disconnect` and
the room-switch part of `handle_join`.  Python `list.remove` deletes the
first occurrence. -/
def removeFromRoom (sid : Nat) (room : String) (cr : List (String × List Nat)) :
    List (String × List Nat) :=
  match alookup cr room with
  | some members => if sid ∈ members then aupdate cr room (members.erase sid) else cr
  | none => cr

/-- The guarded creation `if room not in chat_rooms: chat_rooms[room] = []`. -/
def ensureRoom (room : String) (cr : List (String × List Nat)) :
    List (String × List Nat) :=
  match alookup cr room with
  | some _ => cr
  | none => cr ++ [(room, [])]

/-- The guarded insertion
`if request.sid not in chat_rooms[room]: chat_rooms[room].append(request.sid)`. -/
def addMember (sid : Nat) (room : String) (cr : List (String × List Nat)) :
    List (String × List Nat) :=
  let members := (alookup cr room).getD []
  if sid ∈ members then cr else aupdate cr room (members ++ [sid])

/-- Handler of the `connect` event. -/
def handle_connect : List (Event × Dest) :=
  [(.statusEv "Connected to chat server", .sender)]

/-- The room-directory part of `handle_join`: remove the connection from its
previous room if it had a session, create the target room if missing, then
append the connection to the target room's member list if absent
(lines 187-208 of `app.py`). -/
def joinChatRooms (sid : Nat) (room : String) (s : ServerState) :
    List (String × List Nat) :=
  let cr1 :=
    match alookup s.active_users sid with
    | some sess => removeFromRoom sid sess.room s.chat_rooms
    | none => s.chat_rooms
  addMember sid room (ensureRoom room cr1)

/-- Handler of the `join` event.  `data_username` and `data_room` are the
optional fields of the incoming payload (`data.get('username', '')`,
`data.get('room', 'general')`); `now` stands for `datetime.now().isoformat()`.
Returns the new state and the list of emitted events. -/
def handle_join (sid : Nat) (data_username data_room : Option String)
    (now : String) (s : ServerState) : ServerState × List (Event × Dest) :=
  let username := pyStrip (data_username.getD "")
  let room := pyStrip (data_room.getD "general")
  if username = "" then
    (s, [(.errorEv "Username is required", .sender)])
  else
    let au2 := aupdate s.active_users sid ⟨username, room, now⟩
    let cr3 := joinChatRooms sid room s
    let room_users := collectUsers au2 ((alookup cr3 room).getD [])
    (⟨au2, cr3⟩,
      [(.chatEv "System" ("Welcome to " ++ room ++ " room, " ++ username ++ "!")
          now "system", .sender),
       (.userJoined username now, .roomExceptSelf room),
       (.roomInfo room room_users room_users.length, .sender)])

/-- Handler of the `disconnect` event. -/
def handle_disconnect (sid : Nat) (now : String) (s : ServerState) :
    ServerState × List (Event × Dest) :=
  match alookup s.active_users sid with
  | none => (s, [])
  | some sess =>
    let cr := removeFromRoom sid sess.room s.chat_rooms
    let au := aerase s.active_users sid
    (⟨au, cr⟩, [(.userLeft sess.username now, .room sess.room)])

/-- Handler of the `message` event.  Returns the (unchanged) state, the
emitted events, and the list of AI jobs started in background threads. -/
def handle_message (sid : Nat) (data_message : Option String) (now : String)
    (s : ServerState) : ServerState × List (Event × Dest) × List AIJob :=
  match alookup s.active_users sid with
  | none => (s, [(.errorEv "You must join a room first", .sender)], [])
  | some sess =>
    let message := pyStrip (data_message.getD "")
    if message = "" then
      (s, [(.errorEv "Message cannot be empty", .sender)], [])
    else
      let should_trigger_ai :=
        pyStartsWith (pyLower message) "@ai" || pyContains (pyLower message) "@ai"
      let jobs :=
        if should_trigger_ai then
          let stripped := pyStrip (pyReplace message "@ai" "")
          let ai_prompt := if stripped = "" then message else stripped
          [⟨sess.room, ai_prompt⟩]
        else []
      (s, [(.chatEv sess.username message now "user", .room sess.room)], jobs)

/-- Handler of the `get_rooms` event: emits `rooms_list` with the payload
`room -> {'user_count': ..., 'users': [...]}`. -/
def handle_get_rooms (s : ServerState) : List (Event × Dest) :=
  [(.roomsList
      (s.chat_rooms.map fun p =>
        (p.1, ⟨(collectUsers s.active_users p.2).length,
               collectUsers s.active_users p.2⟩)),
    .sender)]

/-- The REST endpoint `GET /rooms`: returns the mapping
`room -> {'user_count': ..., 'users': [...]}` directly. -/
def get_rooms (s : ServerState) : List (String × RoomsEntry) :=
  s.chat_rooms.map fun p =>
    (p.1, ⟨(collectUsers s.active_users p.2).length,
           collectUsers s.active_users p.2⟩)

/-! ## The AI dispatch path -/

/-- Outcome of the HTTP call `requests.post(OLLAMA_URL + "/api/generate", ...)`
as observed by `generate_llm_response`: a response with a status code and an
optional parsed `response` field, a `requests.exceptions.Timeout`, or any
other exception raised by the request. -/
inductive OllamaResult where
  | ok (status : Nat) (respField : Option String)
  | timeout
  | requestError
deriving DecidableEq, Repr

/-- `generate_llm_response`: converts every outcome of the Ollama call into a
string, never raising. -/
def generate_llm_response (result : OllamaResult) : String :=
  match result with
  | .ok status respField =>
    if status = 200 then respField.getD "Sorry, I could not generate a response."
    else "Sorry, I'm having trouble connecting to the AI model."
  | .timeout => "Sorry, the AI model is taking too long to respond."
  | .requestError => "Sorry, I encountered an error while generating a response."

/-- What happens inside the background thread `generate_and_send_ai_response`:
either the Ollama call runs and returns an `OllamaResult`, or some exception
is raised inside the task body (caught by its `except Exception` clause). -/
inductive TaskOutcome where
  | call (r : OllamaResult)
  | taskException
deriving DecidableEq, Repr

/-- The background thread `generate_and_send_ai_response`: broadcasts exactly
one `message` event of type `ai` to the job's room, whatever happens. -/
def generate_and_send_ai_response (job : AIJob) (outcome : TaskOutcome)
    (now : String) : List (Event × Dest) :=
  match outcome with
  | .call r =>
    [(.chatEv "AI Assistant" (generate_llm_response r) now "ai", .room job.room)]
  | .taskException =>
    [(.chatEv "AI Assistant"
        "Sorry, I encountered an error while processing your request."
        now "ai", .room job.room)]

/-- Every failure outcome of the AI dispatch path: a timeout, a non-200
status, a transport error, or an exception inside the task. -/
def isAiFailure : TaskOutcome → Bool
  | .call (.ok status _) => status ≠ 200
  | _ => true

/-- The four fixed fallback texts the dispatch path can broadcast on failure. -/
def aiFallbackTexts : List String :=
  ["Sorry, I'm having trouble connecting to the AI model.",
   "Sorry, the AI model is taking too long to respond.",
   "Sorry, I encountered an error while generating a response.",
   "Sorry, I encountered an error while processing your request."]

/-! ## Reachability -/

/-- One coordinator operation: a `join`, `disconnect` or `message` event. -/
inductive Step : ServerState → ServerState → Prop
  | join (sid : Nat) (u r : Option String) (now : String) (s : ServerState) :
      Step s (handle_join sid u r now s).1
  | disconnect (sid : Nat) (now : String) (s : ServerState) :
      Step s (handle_disconnect sid now s).1
  | message (sid : Nat) (m : Option String) (now : String) (s : ServerState) :
      Step s (handle_message sid m now s).1

/-- States reachable from the initial state by coordinator operations. -/
inductive Reachable : ServerState → Prop
  | init : Reachable initialState
  | step {s t : ServerState} : Reachable s → Step s t → Reachable t

/-- The coordinator invariant: room and session keys are unique (they embed
Python dicts), each room's member list has no duplicates, and every member of
a room has a session naming exactly that room. -/
def Inv (s : ServerState) : Prop :=
  (s.chat_rooms.map Prod.fst).Nodup ∧
  (s.active_users.map Prod.fst).Nodup ∧
  ∀ p ∈ s.chat_rooms, p.2.Nodup ∧
    ∀ sid ∈ p.2, (alookup s.active_users sid).map Session.room = some p.1

instance (s : ServerState) : Decidable (Inv s) := by
  unfold Inv; infer_instance

end OllamaChat

namespace OllamaChat

/-! ## Association list lemmas -/

variable {α β : Type} [DecidableEq α]

theorem alookup_eq_none {l : List (α × β)} {k : α} :
    alookup l k = none ↔ k ∉ l.map Prod.fst := by
  induction l with
  | nil => simp [alookup]
  | cons p rest ih =>
    obtain ⟨k0, v0⟩ := p
    by_cases h : k0 = k
    · subst h; simp [alookup]
    · simp [alookup, h, ih]
      exact fun _ hk => h hk.symm

theorem alookup_mem {l : List (α × β)} {k : α} {v : β}
    (h : alookup l k = some v) : (k, v) ∈ l := by
  induction l with
  | nil => simp [alookup] at h
  | cons p rest ih =>
    obtain ⟨k0, v0⟩ := p
    by_cases hk : k0 = k
    · subst hk
      simp [alookup] at h
      simp [h]
    · simp [alookup, hk] at h
      simp [ih h]

theorem mem_alookup_of_nodup {l : List (α × β)} {k : α} {v : β}
    (hnd : (l.map Prod.fst).Nodup) (h : (k, v) ∈ l) : alookup l k = some v := by
  induction l with
  | nil => simp at h
  | cons p rest ih =>
    obtain ⟨k0, v0⟩ := p
    rw [List.map_cons, List.nodup_cons] at hnd
    rcases List.mem_cons.mp h with h1 | h1
    · simp only [Prod.mk.injEq] at h1
      obtain ⟨rfl, rfl⟩ := h1
      simp [alookup]
    · by_cases hk : k0 = k
      · subst hk
        exact absurd (List.mem_map_of_mem Prod.fst h1) hnd.1
      · simpa [alookup, hk] using ih hnd.2 h1

theorem alookup_append_of_none {l₁ l₂ : List (α × β)} {k : α}
    (h : alookup l₁ k = none) : alookup (l₁ ++ l₂) k = alookup l₂ k := by
  induction l₁ with
  | nil => simp
  | cons p rest ih =>
    obtain ⟨k0, v0⟩ := p
    by_cases hk : k0 = k
    · simp [alookup, hk] at h
    · simp [alookup, hk] at h ⊢
      exact ih h

theorem alookup_append_of_some {l₁ l₂ : List (α × β)} {k : α} {v : β}
    (h : alookup l₁ k = some v) : alookup (l₁ ++ l₂) k = some v := by
  induction l₁ with
  | nil => simp [alookup] at h
  | cons p rest ih =>
    obtain ⟨k0, v0⟩ := p
    by_cases hk : k0 = k
    · simp [alookup, hk] at h ⊢; exact h
    · simp [alookup, hk] at h ⊢; exact ih h

theorem aupdate_of_none {l : List (α × β)} {k : α} (v : β)
    (h : alookup l k = none) : aupdate l k v = l ++ [(k, v)] := by
  induction l with
  | nil => simp [aupdate]
  | cons p rest ih =>
    obtain ⟨k0, v0⟩ := p
    by_cases hk : k0 = k
    · simp [alookup, hk] at h
    · simp [alookup, hk] at h
      simp [aupdate, hk, ih h]

theorem aupdate_self {l : List (α × β)} {k : α} {v : β}
    (h : alookup l k = some v) : aupdate l k v = l := by
  induction l with
  | nil => simp [alookup] at h
  | cons p rest ih =>
    obtain ⟨k0, v0⟩ := p
    by_cases hk : k0 = k
    · simp [alookup, hk] at h
      simp [aupdate, hk, h]
    · simp [alookup, hk] at h
      simp [aupdate, hk, ih h]

theorem aupdate_aupdate {l : List (α × β)} {k : α} {v w : β} :
    aupdate (aupdate l k v) k w = aupdate l k w := by
  induction l with
  | nil => simp [aupdate]
  | cons p rest ih =>
    obtain ⟨k0, v0⟩ := p
    by_cases hk : k0 = k
    · simp [aupdate, hk]
    · simp [aupdate, hk, ih]

theorem alookup_aupdate_self {l : List (α × β)} {k : α} {v : β} :
    alookup (aupdate l k v) k = some v := by
  induction l with
  | nil => simp [aupdate, alookup]
  | cons p rest ih =>
    obtain ⟨k0, v0⟩ := p
    by_cases hk : k0 = k
    · simp [aupdate, hk, alookup]
    · simp [aupdate, hk, alookup, ih]

theorem alookup_aupdate_ne {l : List (α × β)} {k k' : α} {v : β}
    (h : k' ≠ k) : alookup (aupdate l k v) k' = alookup l k' := by
  induction l with
  | nil => simp [aupdate, alookup, Ne.symm h]
  | cons p rest ih =>
    obtain ⟨k0, v0⟩ := p
    by_cases hk : k0 = k
    · subst hk
      simp [aupdate, alookup, Ne.symm h]
    · simp [aupdate, hk, alookup, ih]

theorem mem_aupdate {l : List (α × β)} {k : α} {v : β} {p : α × β}
    (h : p ∈ aupdate l k v) : p = (k, v) ∨ p ∈ l := by
  induction l with
  | nil => simp [aupdate] at h; simp [h]
  | cons q rest ih =>
    obtain ⟨k0, v0⟩ := q
    by_cases hk : k0 = k
    · subst hk
      simp [aupdate] at h
      rcases h with h | h
      · simp [h]
      · simp [h]
    · simp [aupdate, hk] at h
      rcases h with h | h
      · simp [h]
      · rcases ih h with h1 | h1
        · simp [h1]
        · simp [h1]

theorem mem_aupdate_nodup {l : List (α × β)} {k : α} {v : β} {p : α × β}
    (hnd : (l.map Prod.fst).Nodup) (h : p ∈ aupdate l k v) :
    p = (k, v) ∨ (p ∈ l ∧ p.1 ≠ k) := by
  induction l with
  | nil => simp [aupdate] at h; simp [h]
  | cons q rest ih =>
    obtain ⟨k0, v0⟩ := q
    rw [List.map_cons, List.nodup_cons] at hnd
    by_cases hk : k0 = k
    · subst hk
      simp [aupdate] at h
      rcases h with h | h
      · simp [h]
      · right
        refine ⟨List.mem_cons_of_mem _ h, ?_⟩
        intro hpk
        apply hnd.1
        rw [← hpk]
        exact List.mem_map.mpr ⟨p, h, rfl⟩
    · simp [aupdate, hk] at h
      rcases h with h | h
      · subst h
        exact Or.inr ⟨List.mem_cons_self _ _, hk⟩
      · rcases ih hnd.2 h with h1 | h1
        · simp [h1]
        · exact Or.inr ⟨List.mem_cons_of_mem _ h1.1, h1.2⟩

theorem aupdate_keys_of_mem {l : List (α × β)} {k : α} (v : β)
    (h : k ∈ l.map Prod.fst) : (aupdate l k v).map Prod.fst = l.map Prod.fst := by
  induction l with
  | nil => simp at h
  | cons q rest ih =>
    obtain ⟨k0, v0⟩ := q
    rw [List.map_cons, List.mem_cons] at h
    by_cases hk : k0 = k
    · simp [aupdate, hk]
    · rcases h with h | h
      · exact absurd h.symm hk
      · simp [aupdate, hk, ih h]

theorem aupdate_keys_nodup {l : List (α × β)} {k : α} (v : β)
    (hnd : (l.map Prod.fst).Nodup) : ((aupdate l k v).map Prod.fst).Nodup := by
  by_cases h : k ∈ l.map Prod.fst
  · rw [aupdate_keys_of_mem v h]; exact hnd
  · rw [aupdate_of_none v (alookup_eq_none.mpr h)]
    rw [List.map_append, List.nodup_append]
    refine ⟨hnd, by simp, ?_⟩
    intro a ha
    simp only [List.map_cons, List.map_nil, List.mem_singleton]
    intro hak
    exact h (hak ▸ ha)

theorem aerase_sublist (l : List (α × β)) (k : α) : (aerase l k).Sublist l := by
  induction l with
  | nil => simp [aerase]
  | cons q rest ih =>
    obtain ⟨k0, v0⟩ := q
    by_cases hk : k0 = k
    · simp [aerase, hk]
    · simp [aerase, hk]
      exact ih

theorem mem_aerase {l : List (α × β)} {k : α} {p : α × β}
    (h : p ∈ aerase l k) : p ∈ l :=
  (aerase_sublist l k).mem h

theorem alookup_aerase_ne {l : List (α × β)} {k k' : α}
    (h : k' ≠ k) : alookup (aerase l k) k' = alookup l k' := by
  induction l with
  | nil => simp [aerase]
  | cons q rest ih =>
    obtain ⟨k0, v0⟩ := q
    by_cases hk : k0 = k
    · subst hk
      simp [aerase, alookup, Ne.symm h]
    · simp [aerase, hk, alookup, ih]

theorem alookup_aerase_self {l : List (α × β)} {k : α}
    (hnd : (l.map Prod.fst).Nodup) : alookup (aerase l k) k = none := by
  induction l with
  | nil => simp [aerase, alookup]
  | cons q rest ih =>
    obtain ⟨k0, v0⟩ := q
    rw [List.map_cons, List.nodup_cons] at hnd
    by_cases hk : k0 = k
    · subst hk
      simp [aerase]
      exact alookup_eq_none.mpr hnd.1
    · simp [aerase, hk, alookup, ih hnd.2]

theorem aerase_append_of_none {l₁ l₂ : List (α × β)} {k : α}
    (h : alookup l₁ k = none) : aerase (l₁ ++ l₂) k = l₁ ++ aerase l₂ k := by
  induction l₁ with
  | nil => simp
  | cons q rest ih =>
    obtain ⟨k0, v0⟩ := q
    by_cases hk : k0 = k
    · simp [alookup, hk] at h
    · simp [alookup, hk] at h
      simp [aerase, hk, ih h]

end OllamaChat

namespace OllamaChat

/-! ## Room operation lemmas -/

theorem removeFromRoom_keys (sid : Nat) (room : String)
    (cr : List (String × List Nat)) :
    (removeFromRoom sid room cr).map Prod.fst = cr.map Prod.fst := by
  unfold removeFromRoom
  cases halk : alookup cr room with
  | none => rfl
  | some members =>
    by_cases hs : sid ∈ members
    · simp only [hs, if_true]
      exact aupdate_keys_of_mem _ (List.mem_map.mpr ⟨(room, members), alookup_mem halk, rfl⟩)
    · simp [hs]

theorem mem_removeFromRoom {sid : Nat} {room : String}
    {cr : List (String × List Nat)} {p : String × List Nat}
    (h : p ∈ removeFromRoom sid room cr) :
    p ∈ cr ∨ ∃ members, alookup cr room = some members ∧ sid ∈ members ∧
      p = (room, members.erase sid) := by
  unfold removeFromRoom at h
  cases halk : alookup cr room with
  | none => rw [halk] at h; exact Or.inl h
  | some members =>
    rw [halk] at h
    by_cases hs : sid ∈ members
    · simp only [hs, if_true] at h
      rcases mem_aupdate h with h1 | h1
      · exact Or.inr ⟨members, rfl, hs, h1⟩
      · exact Or.inl h1
    · simp only [hs, if_false] at h
      exact Or.inl h

theorem alookup_removeFromRoom_ne {sid : Nat} {room r2 : String}
    {cr : List (String × List Nat)} (h : r2 ≠ room) :
    alookup (removeFromRoom sid room cr) r2 = alookup cr r2 := by
  unfold removeFromRoom
  cases halk : alookup cr room with
  | none => rfl
  | some members =>
    by_cases hs : sid ∈ members
    · simp only [hs, if_true]
      exact alookup_aupdate_ne h
    · simp [hs]

theorem ensureRoom_keys_nodup {room : String} {cr : List (String × List Nat)}
    (hnd : (cr.map Prod.fst).Nodup) :
    ((ensureRoom room cr).map Prod.fst).Nodup := by
  unfold ensureRoom
  cases halk : alookup cr room with
  | some members => exact hnd
  | none =>
    rw [List.map_append, List.nodup_append]
    refine ⟨hnd, by simp, ?_⟩
    intro a ha
    simp only [List.map_cons, List.map_nil, List.mem_singleton]
    intro hak
    exact (alookup_eq_none.mp halk) (hak ▸ ha)

theorem mem_ensureRoom {room : String} {cr : List (String × List Nat)}
    {p : String × List Nat} (h : p ∈ ensureRoom room cr) :
    p ∈ cr ∨ p = (room, []) := by
  unfold ensureRoom at h
  cases halk : alookup cr room with
  | some members => rw [halk] at h; exact Or.inl h
  | none =>
    rw [halk] at h
    rcases List.mem_append.mp h with h1 | h1
    · exact Or.inl h1
    · exact Or.inr (List.mem_singleton.mp h1)

theorem ensureRoom_alookup_self (room : String) (cr : List (String × List Nat)) :
    ∃ members, alookup (ensureRoom room cr) room = some members ∧
      (alookup cr room = some members ∨ (alookup cr room = none ∧ members = [])) := by
  unfold ensureRoom
  cases halk : alookup cr room with
  | some members => exact ⟨members, halk, Or.inl rfl⟩
  | none =>
    refine ⟨[], ?_, Or.inr ⟨rfl, rfl⟩⟩
    rw [alookup_append_of_none halk]
    simp [alookup]

theorem ensureRoom_alookup_ne {room r2 : String} {cr : List (String × List Nat)}
    (h : r2 ≠ room) :
    alookup (ensureRoom room cr) r2 = alookup cr r2 := by
  unfold ensureRoom
  cases halk : alookup cr room with
  | some members => rfl
  | none =>
    cases halk2 : alookup cr r2 with
    | some l => exact alookup_append_of_some halk2
    | none =>
      rw [alookup_append_of_none halk2]
      simp [alookup, Ne.symm h]

theorem addMember_eq {sid : Nat} {room : String} {cr : List (String × List Nat)}
    {members : List Nat} (halk : alookup cr room = some members)
    (hs : sid ∉ members) :
    addMember sid room cr = aupdate cr room (members ++ [sid]) := by
  simp [addMember, halk, hs]

/-! ## Invariant preservation -/

theorem inv_not_mem_of_none {s : ServerState} (hInv : Inv s) {sid : Nat}
    (halk : alookup s.active_users sid = none) :
    ∀ p ∈ s.chat_rooms, sid ∉ p.2 := by
  intro p hp hmem
  have := (hInv.2.2 p hp).2 sid hmem
  rw [halk] at this
  simp at this

theorem inv_not_mem_of_ne {s : ServerState} (hInv : Inv s) {sid : Nat}
    {sess : Session} (halk : alookup s.active_users sid = some sess)
    {p : String × List Nat} (hp : p ∈ s.chat_rooms) (hr : p.1 ≠ sess.room) :
    sid ∉ p.2 := by
  intro hmem
  have := (hInv.2.2 p hp).2 sid hmem
  rw [halk] at this
  simp at this
  exact hr this.symm

theorem not_mem_removeFromRoom {s : ServerState} (hInv : Inv s) {sid : Nat}
    {sess : Session} (halk : alookup s.active_users sid = some sess) :
    ∀ p ∈ removeFromRoom sid sess.room s.chat_rooms, sid ∉ p.2 := by
  intro p hp
  rcases mem_removeFromRoom hp with h1 | ⟨members, hm, hsm, rfl⟩
  · by_cases hr : p.1 = sess.room
    · have hpl : alookup s.chat_rooms p.1 = some p.2 :=
        mem_alookup_of_nodup hInv.1 (by rw [Prod.mk.eta] at *; exact h1)
      rw [hr] at hpl
      unfold removeFromRoom at hp
      rw [hpl] at hp
      by_cases hsmem : sid ∈ p.2
      · simp only [hsmem, if_true] at hp
        rcases mem_aupdate_nodup hInv.1 hp with h2 | h2
        · intro hc
          rw [h2] at hc
          exact absurd hc ((hInv.2.2 _ (alookup_mem hpl)).1.not_mem_erase)
        · exact absurd hr h2.2
      · exact hsmem
    · exact inv_not_mem_of_ne hInv halk h1 hr
  · exact fun hc => absurd hc ((hInv.2.2 _ (alookup_mem hm)).1.not_mem_erase)

theorem handle_join_state_invalid (sid : Nat) (u r : Option String) (now : String)
    (s : ServerState) (hm : pyStrip (u.getD "") = "") :
    (handle_join sid u r now s).1 = s := by
  simp [handle_join, hm]

theorem handle_join_state (sid : Nat) (u r : Option String) (now : String)
    (s : ServerState) (hm : pyStrip (u.getD "") ≠ "") :
    (handle_join sid u r now s).1 =
      ⟨aupdate s.active_users sid
         ⟨pyStrip (u.getD ""), pyStrip (r.getD "general"), now⟩,
       joinChatRooms sid (pyStrip (r.getD "general")) s⟩ := by
  simp [handle_join, hm]

theorem handle_message_state (sid : Nat) (m : Option String) (now : String)
    (s : ServerState) : (handle_message sid m now s).1 = s := by
  unfold handle_message
  cases alookup s.active_users sid with
  | none => rfl
  | some sess =>
    by_cases hm : pyStrip (m.getD "") = ""
    · simp [hm]
    · simp [hm]

end OllamaChat

namespace OllamaChat

theorem inv_join (s : ServerState) (hInv : Inv s) (sid : Nat) (u r : Option String)
    (now : String) : Inv (handle_join sid u r now s).1 := by
  by_cases hm : pyStrip (u.getD "") = ""
  · rw [handle_join_state_invalid sid u r now s hm]; exact hInv
  · rw [handle_join_state sid u r now s hm]
    show Inv ⟨aupdate s.active_users sid
      ⟨pyStrip (u.getD ""), pyStrip (r.getD "general"), now⟩,
      addMember sid (pyStrip (r.getD "general"))
        (ensureRoom (pyStrip (r.getD "general"))
          (match alookup s.active_users sid with
           | some sess => removeFromRoom sid sess.room s.chat_rooms
           | none => s.chat_rooms))⟩
    obtain ⟨cr1, hcr1eq, hkeys, hnodups, hnomem, hsess⟩ :
        ∃ cr1, (match alookup s.active_users sid with
                 | some sess => removeFromRoom sid sess.room s.chat_rooms
                 | none => s.chat_rooms) = cr1 ∧
          cr1.map Prod.fst = s.chat_rooms.map Prod.fst ∧
          (∀ p ∈ cr1, p.2.Nodup) ∧
          (∀ p ∈ cr1, sid ∉ p.2) ∧
          (∀ p ∈ cr1, ∀ m ∈ p.2,
            (alookup s.active_users m).map Session.room = some p.1) := by
      cases halk : alookup s.active_users sid with
      | none =>
        exact ⟨s.chat_rooms, rfl, rfl, fun p hp => (hInv.2.2 p hp).1,
          inv_not_mem_of_none hInv halk, fun p hp => (hInv.2.2 p hp).2⟩
      | some sess =>
        refine ⟨removeFromRoom sid sess.room s.chat_rooms, rfl,
          removeFromRoom_keys sid sess.room s.chat_rooms, ?_,
          not_mem_removeFromRoom hInv halk, ?_⟩
        · intro p hp
          rcases mem_removeFromRoom hp with h1 | ⟨members, hmem, hsm, rfl⟩
          · exact (hInv.2.2 p h1).1
          · exact (hInv.2.2 _ (alookup_mem hmem)).1.erase _
        · intro p hp m hmm
          rcases mem_removeFromRoom hp with h1 | ⟨members, hmem, hsm, rfl⟩
          · exact (hInv.2.2 p h1).2 m hmm
          · exact (hInv.2.2 _ (alookup_mem hmem)).2 m (List.mem_of_mem_erase hmm)
    rw [hcr1eq]
    have hkeys1 : (cr1.map Prod.fst).Nodup := by rw [hkeys]; exact hInv.1
    obtain ⟨mR, halkR, _⟩ :=
      ensureRoom_alookup_self (pyStrip (r.getD "general")) cr1
    have hkeys2 :
        ((ensureRoom (pyStrip (r.getD "general")) cr1).map Prod.fst).Nodup :=
      ensureRoom_keys_nodup hkeys1
    have hcr2props : ∀ p ∈ ensureRoom (pyStrip (r.getD "general")) cr1,
        p.2.Nodup ∧ sid ∉ p.2 ∧
          (∀ m ∈ p.2, (alookup s.active_users m).map Session.room = some p.1) := by
      intro p hp
      rcases mem_ensureRoom hp with h1 | rfl
      · exact ⟨hnodups p h1, hnomem p h1, hsess p h1⟩
      · exact ⟨List.nodup_nil, by simp, by simp⟩
    have hsidR : sid ∉ mR := (hcr2props _ (alookup_mem halkR)).2.1
    rw [addMember_eq halkR hsidR]
    unfold Inv
    refine ⟨aupdate_keys_nodup _ hkeys2, aupdate_keys_nodup _ hInv.2.1, ?_⟩
    intro p hp
    rcases mem_aupdate_nodup hkeys2 hp with rfl | ⟨hpmem, hpne⟩
    · refine ⟨?_, ?_⟩
      · exact List.Nodup.append (hcr2props _ (alookup_mem halkR)).1
          (List.nodup_singleton sid) (by simpa using hsidR)
      · intro m hmm
        rcases List.mem_append.mp hmm with h2 | h2
        · have hne : m ≠ sid := fun hc => hsidR (hc ▸ h2)
          rw [alookup_aupdate_ne hne]
          exact (hcr2props _ (alookup_mem halkR)).2.2 m h2
        · rw [List.mem_singleton.mp h2, alookup_aupdate_self]
          rfl
    · refine ⟨(hcr2props p hpmem).1, ?_⟩
      intro m hmm
      have hmne : m ≠ sid := fun hc => (hcr2props p hpmem).2.1 (hc ▸ hmm)
      rw [alookup_aupdate_ne hmne]
      exact (hcr2props p hpmem).2.2 m hmm

theorem inv_disconnect (s : ServerState) (hInv : Inv s) (sid : Nat) (now : String) :
    Inv (handle_disconnect sid now s).1 := by
  unfold handle_disconnect
  cases halk : alookup s.active_users sid with
  | none => exact hInv
  | some sess =>
    show Inv ⟨aerase s.active_users sid, removeFromRoom sid sess.room s.chat_rooms⟩
    unfold Inv
    refine ⟨?_, ?_, ?_⟩
    · rw [removeFromRoom_keys]; exact hInv.1
    · exact hInv.2.1.sublist ((aerase_sublist _ _).map Prod.fst)
    · intro p hp
      refine ⟨?_, ?_⟩
      · rcases mem_removeFromRoom hp with h1 | ⟨members, hmem, hsm, rfl⟩
        · exact (hInv.2.2 p h1).1
        · exact (hInv.2.2 _ (alookup_mem hmem)).1.erase _
      · intro m hmm
        have hmne : m ≠ sid :=
          fun hc => not_mem_removeFromRoom hInv halk p hp (hc ▸ hmm)
        rw [alookup_aerase_ne hmne]
        rcases mem_removeFromRoom hp with h1 | ⟨members, hmem, hsm, rfl⟩
        · exact (hInv.2.2 p h1).2 m hmm
        · exact (hInv.2.2 _ (alookup_mem hmem)).2 m (List.mem_of_mem_erase hmm)

theorem inv_step {s t : ServerState} (hInv : Inv s) (h : Step s t) : Inv t := by
  cases h with
  | join sid u r now s => exact inv_join s hInv sid u r now
  | disconnect sid now s => exact inv_disconnect s hInv sid now
  | message sid m now s => rw [handle_message_state]; exact hInv

theorem reachable_inv {s : ServerState} (h : Reachable s) : Inv s := by
  induction h with
  | init => decide
  | step hr hstep ih => exact inv_step ih hstep

end OllamaChat

namespace OllamaChat

/-! ## Handler characterization lemmas -/

theorem handle_join_events_invalid (sid : Nat) (u r : Option String) (now : String)
    (s : ServerState) (hm : pyStrip (u.getD "") = "") :
    (handle_join sid u r now s).2 =
      [(Event.errorEv "Username is required", Dest.sender)] := by
  simp [handle_join, hm]

theorem handle_join_events (sid : Nat) (u r : Option String) (now : String)
    (s : ServerState) (hm : pyStrip (u.getD "") ≠ "") :
    (handle_join sid u r now s).2 =
      [(Event.chatEv "System"
          ("Welcome to " ++ pyStrip (r.getD "general") ++ " room, " ++
            pyStrip (u.getD "") ++ "!") now "system", Dest.sender),
       (Event.userJoined (pyStrip (u.getD "")) now,
        Dest.roomExceptSelf (pyStrip (r.getD "general"))),
       (Event.roomInfo (pyStrip (r.getD "general"))
          (collectUsers
            (aupdate s.active_users sid
              ⟨pyStrip (u.getD ""), pyStrip (r.getD "general"), now⟩)
            ((alookup (joinChatRooms sid (pyStrip (r.getD "general")) s)
               (pyStrip (r.getD "general"))).getD []))
          (collectUsers
            (aupdate s.active_users sid
              ⟨pyStrip (u.getD ""), pyStrip (r.getD "general"), now⟩)
            ((alookup (joinChatRooms sid (pyStrip (r.getD "general")) s)
               (pyStrip (r.getD "general"))).getD [])).length,
        Dest.sender)] := by
  simp [handle_join, hm]

theorem handle_join_state_some (sid : Nat) (uraw braw now : String)
    (s : ServerState) (hm : pyStrip uraw ≠ "") :
    (handle_join sid (some uraw) (some braw) now s).1 =
      ⟨aupdate s.active_users sid ⟨pyStrip uraw, pyStrip braw, now⟩,
       joinChatRooms sid (pyStrip braw) s⟩ :=
  handle_join_state sid (some uraw) (some braw) now s hm

theorem joinChatRooms_alookup (sid : Nat) (R : String) (s : ServerState) :
    ∃ mFinal, alookup (joinChatRooms sid R s) R = some mFinal := by
  unfold joinChatRooms
  obtain ⟨mB, halkB, _⟩ := ensureRoom_alookup_self R
    (match alookup s.active_users sid with
     | some sess => removeFromRoom sid sess.room s.chat_rooms
     | none => s.chat_rooms)
  by_cases hs : sid ∈ mB
  · exact ⟨mB, by simp [addMember, halkB, hs]⟩
  · exact ⟨mB ++ [sid], by simp [addMember, halkB, hs, alookup_aupdate_self]⟩

theorem handle_message_jobs (sid : Nat) (m : Option String) (now : String)
    (s : ServerState) (sess : Session)
    (hs : alookup s.active_users sid = some sess)
    (hne : pyStrip (m.getD "") ≠ "") :
    (handle_message sid m now s).2.2 =
      (if pyStartsWith (pyLower (pyStrip (m.getD ""))) "@ai" ||
          pyContains (pyLower (pyStrip (m.getD ""))) "@ai" then
        [⟨sess.room,
          if pyStrip (pyReplace (pyStrip (m.getD "")) "@ai" "") = "" then
            pyStrip (m.getD "")
          else pyStrip (pyReplace (pyStrip (m.getD "")) "@ai" "")⟩]
      else []) := by
  unfold handle_message
  rw [hs]
  simp [hne]

theorem collectUsers_spec (active : List (Nat × Session)) (sids : List Nat) :
    ∀ nm, nm ∈ collectUsers active sids ↔ ∃ m, m ∈ sids ∧ ∃ sess,
      alookup active m = some sess ∧ sess.username = nm := by
  intro nm
  simp only [collectUsers, List.mem_filterMap, Option.map_eq_some']

/-! ## Concrete states used by witnesses and counterexamples -/

/-- The state after a single user "alice" joins the room "general". -/
def aliceState : ServerState :=
  (handle_join 1 (some "alice") (some "general") "t0" initialState).1

/-- Modelled from the spec wording of claim C2 (not from the code): remove the
FIRST case-insensitive occurrence of `pat` from a character list, comparing
lowercased text, keeping the original characters elsewhere.  Only used with
the non-empty pattern `"@ai"`. -/
def removeFirstCIL (pat : List Char) : List Char → List Char
  | [] => []
  | c :: rest =>
    if startsWithL ((c :: rest).map Char.toLower) pat then
      List.drop (pat.length - 1) rest
    else c :: removeFirstCIL pat rest

/-- Modelled from the spec wording of claim C2 (not from the code): the prompt
the claim expects for an AI-directed message, namely the message with the
first case-insensitive `"@ai"` occurrence removed and the result trimmed,
falling back to the original message when the removal leaves the empty
string. -/
def specAiPrompt (message : String) : String :=
  let p := pyStrip (String.mk (removeFirstCIL ("@ai".data) message.data))
  if p = "" then message else p

end OllamaChat

namespace OllamaChat

/-! ## Claims -/

/-- Claim C1: in every reachable state of the coordinator (any sequence of
join, disconnect and message operations from the initial state), every
connection id in a room's member list has a session registry entry whose
room equals that room, and no connection id is in the member lists of two
different rooms at once. -/
theorem C1_membership_invariant (s : ServerState) (h : Reachable s) :
    (∀ r l sid, alookup s.chat_rooms r = some l → sid ∈ l →
       ∃ sess, alookup s.active_users sid = some sess ∧ sess.room = r) ∧
    (∀ r1 l1 r2 l2 sid, alookup s.chat_rooms r1 = some l1 →
       alookup s.chat_rooms r2 = some l2 → sid ∈ l1 → sid ∈ l2 → r1 = r2) := by
  have hInv := reachable_inv h
  constructor
  · intro r l sid hl hm
    have hsome := (hInv.2.2 (r, l) (alookup_mem hl)).2 sid hm
    cases halk : alookup s.active_users sid with
    | none => rw [halk] at hsome; simp at hsome
    | some sess =>
      rw [halk] at hsome
      simp at hsome
      exact ⟨sess, rfl, hsome⟩
  · intro r1 l1 r2 l2 sid h1 h2 hm1 hm2
    have e1 := (hInv.2.2 (r1, l1) (alookup_mem h1)).2 sid hm1
    have e2 := (hInv.2.2 (r2, l2) (alookup_mem h2)).2 sid hm2
    rw [e1] at e2
    exact Option.some.inj e2

/-- Witness for C1: the invariant holds at the concrete reachable state in
which connection 1 has joined room "tech" as "alice". -/
theorem C1_membership_invariant_witness :
    (∀ r l sid,
       alookup (handle_join 1 (some "alice") (some "tech") "t0"
         initialState).1.chat_rooms r = some l → sid ∈ l →
       ∃ sess, alookup (handle_join 1 (some "alice") (some "tech") "t0"
         initialState).1.active_users sid = some sess ∧ sess.room = r) ∧
    (∀ r1 l1 r2 l2 sid,
       alookup (handle_join 1 (some "alice") (some "tech") "t0"
         initialState).1.chat_rooms r1 = some l1 →
       alookup (handle_join 1 (some "alice") (some "tech") "t0"
         initialState).1.chat_rooms r2 = some l2 →
       sid ∈ l1 → sid ∈ l2 → r1 = r2) :=
  C1_membership_invariant _
    (Reachable.step Reachable.init
      (Step.join 1 (some "alice") (some "tech") "t0" initialState))

/-- Claim C9: in every reachable state, each room's member list has no
duplicate connection ids, so erasing one occurrence of an id (as disconnect
and room switch do) removes that connection's membership entirely. -/
theorem C9_member_lists_nodup (s : ServerState) (h : Reachable s) :
    ∀ r l, alookup s.chat_rooms r = some l →
      l.Nodup ∧ ∀ sid ∈ l, sid ∉ l.erase sid := by
  have hInv := reachable_inv h
  intro r l hl
  have hnd := (hInv.2.2 (r, l) (alookup_mem hl)).1
  exact ⟨hnd, fun sid _ => hnd.not_mem_erase⟩

/-- Witness for C9: in the concrete reachable state in which connections 1
and 2 have joined room "general", that room's member list is [1, 2], it has
no duplicates, and erasing either member removes it entirely. -/
theorem C9_member_lists_nodup_witness :
    alookup (handle_join 2 (some "bob") (some "general") "t1"
        (handle_join 1 (some "alice") (some "general") "t0"
          initialState).1).1.chat_rooms "general" = some [1, 2] ∧
    (([1, 2] : List Nat).Nodup ∧
      ∀ sid ∈ ([1, 2] : List Nat), sid ∉ ([1, 2] : List Nat).erase sid) :=
  ⟨by decide,
   C9_member_lists_nodup _
    (Reachable.step
      (Reachable.step Reachable.init
        (Step.join 1 (some "alice") (some "general") "t0" initialState))
      (Step.join 2 (some "bob") (some "general") "t1"
        (handle_join 1 (some "alice") (some "general") "t0" initialState).1))
    "general" [1, 2] (by decide)⟩

/-- Claim C7: a message from a connection with no session registry entry
produces no broadcast, no AI job, exactly one error notice to the sender,
and leaves the state unchanged. -/
theorem C7_not_joined_message (s : ServerState) (sid : Nat) (m : Option String)
    (now : String) (h : alookup s.active_users sid = none) :
    handle_message sid m now s =
      (s, [(Event.errorEv "You must join a room first", Dest.sender)], []) := by
  unfold handle_message
  rw [h]

/-- Witness for C7: a message from the never-joined connection 5 in the
initial state yields only the error notice. -/
theorem C7_not_joined_message_witness :
    handle_message 5 (some "hello") "t0" initialState =
      (initialState,
       [(Event.errorEv "You must join a room first", Dest.sender)], []) :=
  C7_not_joined_message initialState 5 (some "hello") "t0" (by decide)

/-- Claim C8: for every state, the mapping returned by the REST endpoint
`GET /rooms` is exactly the payload emitted by the `rooms_list` event of the
`get_rooms` handler. -/
theorem C8_rest_equals_rooms_list (s : ServerState) :
    handle_get_rooms s = [(Event.roomsList (get_rooms s), Dest.sender)] := rfl

/-- Claim C6: every failure of the AI dispatch path (timeout, non-200
status, transport error, or an exception inside the dispatch task) produces
exactly one chat message of type `ai` from "AI Assistant" carrying one of
the fixed fallback texts, broadcast to the job's room; no `error` event is
emitted and (the Lean model being total) no exception propagates. -/
theorem C6_ai_failure_fallback (job : AIJob) (outcome : TaskOutcome)
    (now : String) (h : isAiFailure outcome = true) :
    (∃ text, generate_and_send_ai_response job outcome now =
        [(Event.chatEv "AI Assistant" text now "ai", Dest.room job.room)] ∧
      text ∈ aiFallbackTexts) ∧
    ∀ msg d, (Event.errorEv msg, d) ∉ generate_and_send_ai_response job outcome now := by
  cases outcome with
  | taskException =>
    exact ⟨⟨_, rfl, by simp [aiFallbackTexts]⟩,
      by simp [generate_and_send_ai_response]⟩
  | call res =>
    cases res with
    | timeout =>
      exact ⟨⟨_, rfl, by simp [generate_llm_response, aiFallbackTexts]⟩,
        by simp [generate_and_send_ai_response]⟩
    | requestError =>
      exact ⟨⟨_, rfl, by simp [generate_llm_response, aiFallbackTexts]⟩,
        by simp [generate_and_send_ai_response]⟩
    | ok status respField =>
      have hst : ¬status = 200 := by simpa [isAiFailure] using h
      refine ⟨⟨_, rfl, ?_⟩, by simp [generate_and_send_ai_response]⟩
      simp [generate_llm_response, hst, aiFallbackTexts]

/-- Witness for C6: a timeout of the Ollama call for a job in room "general"
yields exactly the timeout fallback message. -/
theorem C6_ai_failure_fallback_witness :
    (∃ text, generate_and_send_ai_response ⟨"general", "hi"⟩
        (TaskOutcome.call OllamaResult.timeout) "t9" =
        [(Event.chatEv "AI Assistant" text "t9" "ai", Dest.room "general")] ∧
      text ∈ aiFallbackTexts) ∧
    ∀ msg d, (Event.errorEv msg, d) ∉ generate_and_send_ai_response
      ⟨"general", "hi"⟩ (TaskOutcome.call OllamaResult.timeout) "t9" :=
  C6_ai_failure_fallback ⟨"general", "hi"⟩
    (TaskOutcome.call OllamaResult.timeout) "t9" (by decide)

end OllamaChat

namespace OllamaChat

/-- Counterexample to claim C3: a join request whose room field is present
but trims to the empty string does not fall back to "general" — the session
is created in the room named by the empty string. -/
theorem C3_counterexample :
    alookup (handle_join 1 (some "alice") (some " ") "t0"
      initialState).1.active_users 1 = some ⟨"alice", "", "t0"⟩ ∧
    ("" : String) ≠ "general" := by
  exact ⟨by decide, by decide⟩

/-- Claim C3 as amended: with a valid username a join never fails (no error
event is emitted) whatever the room field holds; the fallback "general" is
used only when the room field is ABSENT, while a present room field is
trimmed and used as is — including when it trims to the empty string. -/
theorem C3_amended_room_handling (s : ServerState) (sid : Nat) (uraw : String)
    (roomField : Option String) (now : String) (hu : pyStrip uraw ≠ "") :
    (∀ e d, (e, d) ∈ (handle_join sid (some uraw) roomField now s).2 →
       ∀ msg, e ≠ Event.errorEv msg) ∧
    alookup (handle_join sid (some uraw) roomField now s).1.active_users sid =
      some ⟨pyStrip uraw,
            (match roomField with
             | none => "general"
             | some braw => pyStrip braw), now⟩ := by
  constructor
  · intro e d hed msg
    rw [handle_join_events sid (some uraw) roomField now s hu] at hed
    simp only [List.mem_cons, List.not_mem_nil, or_false, Prod.mk.injEq] at hed
    rcases hed with ⟨h1, _⟩ | ⟨h1, _⟩ | ⟨h1, _⟩ <;> subst h1 <;> simp
  · rw [handle_join_state sid (some uraw) roomField now s hu]
    show alookup (aupdate s.active_users sid
      ⟨pyStrip uraw, pyStrip (roomField.getD "general"), now⟩) sid = _
    rw [alookup_aupdate_self]
    cases roomField with
    | none => rfl
    | some braw => rfl

/-- Witness for the amended C3: joining with username "bob" and an absent
room field lands the session in "general" and emits no error event. -/
theorem C3_amended_room_handling_witness :
    (∀ e d, (e, d) ∈ (handle_join 1 (some "bob") none "t0" initialState).2 →
       ∀ msg, e ≠ Event.errorEv msg) ∧
    alookup (handle_join 1 (some "bob") none "t0"
      initialState).1.active_users 1 =
      some ⟨pyStrip "bob",
            (match (none : Option String) with
             | none => "general"
             | some braw => pyStrip braw), "t0"⟩ :=
  C3_amended_room_handling initialState 1 "bob" none "t0" (by decide)

end OllamaChat

namespace OllamaChat

/-- Counterexample to claim C2: the message "@AI hello" (sent by the joined
connection 1) contains "@ai" case-insensitively, so the claim demands an AI
job whose prompt is "hello" (the first case-insensitive occurrence removed,
trimmed).  The code instead calls the case-sensitive
`message.replace('@ai', '')`, which removes nothing here, so the submitted
prompt is the whole message "@AI hello". -/
theorem C2_counterexample :
    (handle_message 1 (some "@AI hello") "t1" aliceState).2.2 =
      [⟨"general", "@AI hello"⟩] ∧
    specAiPrompt "@AI hello" = "hello" ∧
    ("@AI hello" : String) ≠ "hello" :=
  ⟨by decide, by decide, by decide⟩

/-- Claim C2 as amended: for a joined connection and a message whose trimmed
text contains "@ai" case-insensitively, exactly one AI job is submitted, for
the session's room, with prompt equal to the trimmed message with every
exact lowercase "@ai" occurrence removed (case-sensitively) and the result
trimmed; if that leaves the empty string the prompt is the trimmed original
message. -/
theorem C2_amended_ai_job (s : ServerState) (sid : Nat) (raw now : String)
    (sess : Session) (hs : alookup s.active_users sid = some sess)
    (hne : pyStrip raw ≠ "")
    (htrig : pyContains (pyLower (pyStrip raw)) "@ai" = true) :
    (handle_message sid (some raw) now s).2.2 =
      [⟨sess.room,
        if pyStrip (pyReplace (pyStrip raw) "@ai" "") = "" then pyStrip raw
        else pyStrip (pyReplace (pyStrip raw) "@ai" "")⟩] := by
  rw [handle_message_jobs sid (some raw) now s sess hs hne]
  simp only [Option.getD_some]
  rw [if_pos]
  rw [Bool.or_eq_true]
  exact Or.inr htrig

/-- Witness for the amended C2: the joined connection 1 sends
"ping @ai now"; exactly one job for room "general" is submitted, with the
prompt given by the case-sensitive removal. -/
theorem C2_amended_ai_job_witness :
    (handle_message 1 (some "ping @ai now") "t1" aliceState).2.2 =
      [⟨("general" : String),
        if pyStrip (pyReplace (pyStrip "ping @ai now") "@ai" "") = "" then
          pyStrip "ping @ai now"
        else pyStrip (pyReplace (pyStrip "ping @ai now") "@ai" "")⟩] :=
  C2_amended_ai_job aliceState 1 "ping @ai now" "t1" ⟨"alice", "general", "t0"⟩
    (by decide) (by decide) (by decide)

end OllamaChat

namespace OllamaChat

/-- Claim C10: in every room snapshot produced — the `room_info` payload on
join, the `rooms_list` payload, and the `GET /rooms` response — the users
list contains exactly the usernames of the room's member ids that have a
session registry entry, and the reported user count equals the length of
that users list. -/
theorem C10_snapshot_consistency (s : ServerState) (sid : Nat)
    (u r : Option String) (now : String) (rm : String) (sids : List Nat)
    (hrm : alookup s.chat_rooms rm = some sids) :
    (∃ e, (rm, e) ∈ get_rooms s ∧ e.user_count = e.users.length ∧
       ∀ nm, nm ∈ e.users ↔ ∃ m, m ∈ sids ∧ ∃ sess,
         alookup s.active_users m = some sess ∧ sess.username = nm) ∧
    (∃ entries, handle_get_rooms s = [(Event.roomsList entries, Dest.sender)] ∧
       ∃ e, (rm, e) ∈ entries ∧ e.user_count = e.users.length ∧
         ∀ nm, nm ∈ e.users ↔ ∃ m, m ∈ sids ∧ ∃ sess,
           alookup s.active_users m = some sess ∧ sess.username = nm) ∧
    (∀ room users cnt d,
       (Event.roomInfo room users cnt, d) ∈ (handle_join sid u r now s).2 →
       cnt = users.length ∧ ∃ sids2,
         alookup (handle_join sid u r now s).1.chat_rooms room = some sids2 ∧
         ∀ nm, nm ∈ users ↔ ∃ m, m ∈ sids2 ∧ ∃ sess,
           alookup (handle_join sid u r now s).1.active_users m = some sess ∧
           sess.username = nm) := by
  refine ⟨?_, ?_, ?_⟩
  · refine ⟨⟨(collectUsers s.active_users sids).length,
      collectUsers s.active_users sids⟩, ?_, rfl, collectUsers_spec _ _⟩
    exact List.mem_map.mpr ⟨(rm, sids), alookup_mem hrm, rfl⟩
  · refine ⟨_, rfl, ⟨(collectUsers s.active_users sids).length,
      collectUsers s.active_users sids⟩, ?_, rfl, collectUsers_spec _ _⟩
    exact List.mem_map.mpr ⟨(rm, sids), alookup_mem hrm, rfl⟩
  · intro room users cnt d hed
    by_cases hm : pyStrip (u.getD "") = ""
    · rw [handle_join_events_invalid sid u r now s hm] at hed
      simp at hed
    · rw [handle_join_events sid u r now s hm] at hed
      simp only [List.mem_cons, List.not_mem_nil, or_false,
        Prod.mk.injEq] at hed
      rcases hed with ⟨h1, _⟩ | ⟨h1, _⟩ | ⟨h1, _⟩
      · exact absurd h1 (by simp)
      · exact absurd h1 (by simp)
      · rw [Event.roomInfo.injEq] at h1
        obtain ⟨rfl, rfl, rfl⟩ := h1
        obtain ⟨mFinal, hmf⟩ :=
          joinChatRooms_alookup sid (pyStrip (r.getD "general")) s
        rw [handle_join_state sid u r now s hm]
        refine ⟨rfl, mFinal, hmf, ?_⟩
        show ∀ nm, nm ∈ collectUsers
          (aupdate s.active_users sid
            ⟨pyStrip (u.getD ""), pyStrip (r.getD "general"), now⟩)
          ((alookup (joinChatRooms sid (pyStrip (r.getD "general")) s)
             (pyStrip (r.getD "general"))).getD []) ↔ _
        rw [hmf]
        exact collectUsers_spec _ _

/-- Witness for C10: the snapshot property at the concrete state where
"alice" occupies "general" (member list [1]), with a further join request
for connection 2. -/
theorem C10_snapshot_consistency_witness :
    (∃ e, (("general" : String), e) ∈ get_rooms aliceState ∧
       e.user_count = e.users.length ∧
       ∀ nm, nm ∈ e.users ↔ ∃ m, m ∈ [1] ∧ ∃ sess,
         alookup aliceState.active_users m = some sess ∧
         sess.username = nm) ∧
    (∃ entries, handle_get_rooms aliceState =
        [(Event.roomsList entries, Dest.sender)] ∧
       ∃ e, (("general" : String), e) ∈ entries ∧
         e.user_count = e.users.length ∧
         ∀ nm, nm ∈ e.users ↔ ∃ m, m ∈ [1] ∧ ∃ sess,
           alookup aliceState.active_users m = some sess ∧
           sess.username = nm) ∧
    (∀ room users cnt d,
       (Event.roomInfo room users cnt, d) ∈
         (handle_join 2 (some "bob") (some "tech") "t1" aliceState).2 →
       cnt = users.length ∧ ∃ sids2,
         alookup (handle_join 2 (some "bob") (some "tech") "t1"
           aliceState).1.chat_rooms room = some sids2 ∧
         ∀ nm, nm ∈ users ↔ ∃ m, m ∈ sids2 ∧ ∃ sess,
           alookup (handle_join 2 (some "bob") (some "tech") "t1"
             aliceState).1.active_users m = some sess ∧
           sess.username = nm) :=
  C10_snapshot_consistency aliceState 2 (some "bob") (some "tech") "t1"
    "general" [1] (by decide)

end OllamaChat

namespace OllamaChat

theorem removeFromRoom_eq_mem {sid : Nat} {room : String}
    {cr : List (String × List Nat)} {members : List Nat}
    (halk : alookup cr room = some members) (hs : sid ∈ members) :
    removeFromRoom sid room cr = aupdate cr room (members.erase sid) := by
  simp [removeFromRoom, halk, hs]

theorem ensureRoom_eq_some {room : String} {cr : List (String × List Nat)}
    {members : List Nat} (halk : alookup cr room = some members) :
    ensureRoom room cr = cr := by
  simp [ensureRoom, halk]

/-- Claim C4: under the coordinator invariant, a join request that switches a
connection with a session in room A to a different room B leaves the
connection exactly once in B's member list and not at all in A's; and
repeating the identical join request (same username, room and timestamp
parameter) leaves the final registry and directory state unchanged. -/
theorem C4_room_switch (s : ServerState) (sid : Nat) (uraw braw now : String)
    (sess : Session) (hInv : Inv s)
    (hsess : alookup s.active_users sid = some sess)
    (hu : pyStrip uraw ≠ "") (hne : sess.room ≠ pyStrip braw) :
    (∃ l, alookup (handle_join sid (some uraw) (some braw) now s).1.chat_rooms
        (pyStrip braw) = some l ∧ List.count sid l = 1) ∧
    (∀ l, alookup (handle_join sid (some uraw) (some braw) now s).1.chat_rooms
        sess.room = some l → List.count sid l = 0) ∧
    (handle_join sid (some uraw) (some braw) now
        (handle_join sid (some uraw) (some braw) now s).1).1 =
      (handle_join sid (some uraw) (some braw) now s).1 := by
  have hjc : joinChatRooms sid (pyStrip braw) s =
      addMember sid (pyStrip braw) (ensureRoom (pyStrip braw)
        (removeFromRoom sid sess.room s.chat_rooms)) := by
    simp only [joinChatRooms, hsess]
  obtain ⟨mB, halkB, horig⟩ := ensureRoom_alookup_self (pyStrip braw)
    (removeFromRoom sid sess.room s.chat_rooms)
  have hsidB : sid ∉ mB := by
    rcases horig with hB | ⟨_, rfl⟩
    · exact not_mem_removeFromRoom hInv hsess (pyStrip braw, mB) (alookup_mem hB)
    · simp
  have hs1 : (handle_join sid (some uraw) (some braw) now s).1 =
      ⟨aupdate s.active_users sid ⟨pyStrip uraw, pyStrip braw, now⟩,
       aupdate (ensureRoom (pyStrip braw)
         (removeFromRoom sid sess.room s.chat_rooms)) (pyStrip braw)
         (mB ++ [sid])⟩ := by
    rw [handle_join_state_some sid uraw braw now s hu, ServerState.mk.injEq]
    exact ⟨rfl, by rw [hjc, addMember_eq halkB hsidB]⟩
  refine ⟨?_, ?_, ?_⟩
  · refine ⟨mB ++ [sid], ?_, ?_⟩
    · rw [hs1]
      exact alookup_aupdate_self
    · rw [List.count_append, List.count_eq_zero_of_not_mem hsidB]
      simp
  · intro l hl
    rw [hs1] at hl
    have hl2 : alookup (removeFromRoom sid sess.room s.chat_rooms) sess.room =
        some l := by
      rw [← ensureRoom_alookup_ne hne, ← alookup_aupdate_ne hne]
      exact hl
    exact List.count_eq_zero_of_not_mem
      (not_mem_removeFromRoom hInv hsess (sess.room, l) (alookup_mem hl2))
  · rw [hs1, handle_join_state_some sid uraw braw now _ hu, ServerState.mk.injEq]
    refine ⟨aupdate_aupdate, ?_⟩
    show addMember sid (pyStrip braw) (ensureRoom (pyStrip braw)
      (match alookup (aupdate s.active_users sid
          ⟨pyStrip uraw, pyStrip braw, now⟩) sid with
       | some sess2 => removeFromRoom sid sess2.room
           (aupdate (ensureRoom (pyStrip braw)
             (removeFromRoom sid sess.room s.chat_rooms)) (pyStrip braw)
             (mB ++ [sid]))
       | none => aupdate (ensureRoom (pyStrip braw)
           (removeFromRoom sid sess.room s.chat_rooms)) (pyStrip braw)
           (mB ++ [sid]))) = _
    have hmatch : (match alookup (aupdate s.active_users sid
          ⟨pyStrip uraw, pyStrip braw, now⟩) sid with
       | some sess2 => removeFromRoom sid sess2.room
           (aupdate (ensureRoom (pyStrip braw)
             (removeFromRoom sid sess.room s.chat_rooms)) (pyStrip braw)
             (mB ++ [sid]))
       | none => aupdate (ensureRoom (pyStrip braw)
           (removeFromRoom sid sess.room s.chat_rooms)) (pyStrip braw)
           (mB ++ [sid])) =
        removeFromRoom sid (pyStrip braw)
          (aupdate (ensureRoom (pyStrip braw)
            (removeFromRoom sid sess.room s.chat_rooms)) (pyStrip braw)
            (mB ++ [sid])) := by
      rw [alookup_aupdate_self]
    rw [hmatch]
    have hrm3 : removeFromRoom sid (pyStrip braw)
        (aupdate (ensureRoom (pyStrip braw)
          (removeFromRoom sid sess.room s.chat_rooms)) (pyStrip braw)
          (mB ++ [sid])) =
        aupdate (ensureRoom (pyStrip braw)
          (removeFromRoom sid sess.room s.chat_rooms)) (pyStrip braw) mB := by
      rw [removeFromRoom_eq_mem alookup_aupdate_self
        (by simp : sid ∈ mB ++ [sid])]
      rw [List.erase_append_right _ hsidB,
        show List.erase [sid] sid = [] by simp, List.append_nil,
        aupdate_aupdate]
    rw [hrm3]
    have hens2 : ensureRoom (pyStrip braw)
        (aupdate (ensureRoom (pyStrip braw)
          (removeFromRoom sid sess.room s.chat_rooms)) (pyStrip braw) mB) =
        aupdate (ensureRoom (pyStrip braw)
          (removeFromRoom sid sess.room s.chat_rooms)) (pyStrip braw) mB := by
      exact ensureRoom_eq_some alookup_aupdate_self
    rw [hens2, addMember_eq alookup_aupdate_self hsidB, aupdate_aupdate]

/-- Witness for C4: "alice" (connection 1, currently in "general") switches
to "tech" in the concrete state `aliceState`. -/
theorem C4_room_switch_witness :
    (∃ l, alookup (handle_join 1 (some "alice") (some "tech") "t1"
        aliceState).1.chat_rooms (pyStrip "tech") = some l ∧
      List.count 1 l = 1) ∧
    (∀ l, alookup (handle_join 1 (some "alice") (some "tech") "t1"
        aliceState).1.chat_rooms
        (Session.room ⟨"alice", "general", "t0"⟩) = some l →
      List.count 1 l = 0) ∧
    (handle_join 1 (some "alice") (some "tech") "t1"
        (handle_join 1 (some "alice") (some "tech") "t1" aliceState).1).1 =
      (handle_join 1 (some "alice") (some "tech") "t1" aliceState).1 :=
  C4_room_switch aliceState 1 "alice" "tech" "t1" ⟨"alice", "general", "t0"⟩
    (by decide) (by decide) (by decide) (by decide)

end OllamaChat

namespace OllamaChat

theorem handle_disconnect_state_some (sid : Nat) (now : String) (s : ServerState)
    (sess : Session) (halk : alookup s.active_users sid = some sess) :
    (handle_disconnect sid now s).1 =
      ⟨aerase s.active_users sid,
       removeFromRoom sid sess.room s.chat_rooms⟩ := by
  simp [handle_disconnect, halk]

/-- Counterexample to claim C5: starting from the initial state, the fresh
connection 1 joins the previously nonexistent room "myroom" and immediately
disconnects.  The session registry returns to its original value, but the
room directory does not: the lazily created room key "myroom" survives with
an empty member list, so the state is not exactly the pre-join state. -/
theorem C5_counterexample :
    (handle_disconnect 1 "t1"
        (handle_join 1 (some "alice") (some "myroom") "t0"
          initialState).1).1.active_users = initialState.active_users ∧
    (handle_disconnect 1 "t1"
        (handle_join 1 (some "alice") (some "myroom") "t0"
          initialState).1).1.chat_rooms ≠ initialState.chat_rooms :=
  ⟨by decide, by decide⟩

/-- Claim C5 as amended: for a fresh connection (no registry entry, hence by
the invariant no membership), join followed by immediate disconnect restores
the session registry exactly and restores the room directory exactly when
the target room already existed; when the target room was absent, the single
difference is the new room key left behind with an empty member list. -/
theorem C5_amended_join_disconnect (s : ServerState) (sid : Nat)
    (uraw braw now now2 : String) (hInv : Inv s)
    (hfresh : alookup s.active_users sid = none) (hu : pyStrip uraw ≠ "") :
    (handle_disconnect sid now2
        (handle_join sid (some uraw) (some braw) now s).1).1.active_users =
      s.active_users ∧
    (handle_disconnect sid now2
        (handle_join sid (some uraw) (some braw) now s).1).1.chat_rooms =
      (if pyStrip braw ∈ s.chat_rooms.map Prod.fst then s.chat_rooms
       else s.chat_rooms ++ [(pyStrip braw, [])]) := by
  have hjc : joinChatRooms sid (pyStrip braw) s =
      addMember sid (pyStrip braw) (ensureRoom (pyStrip braw) s.chat_rooms) := by
    simp only [joinChatRooms, hfresh]
  obtain ⟨mB, halkB, horig⟩ := ensureRoom_alookup_self (pyStrip braw) s.chat_rooms
  have hsidB : sid ∉ mB := by
    rcases horig with hB | ⟨_, rfl⟩
    · exact inv_not_mem_of_none hInv hfresh (pyStrip braw, mB) (alookup_mem hB)
    · simp
  have hs1 : (handle_join sid (some uraw) (some braw) now s).1 =
      ⟨aupdate s.active_users sid ⟨pyStrip uraw, pyStrip braw, now⟩,
       aupdate (ensureRoom (pyStrip braw) s.chat_rooms) (pyStrip braw)
         (mB ++ [sid])⟩ := by
    rw [handle_join_state_some sid uraw braw now s hu, ServerState.mk.injEq]
    exact ⟨rfl, by rw [hjc, addMember_eq halkB hsidB]⟩
  rw [hs1]
  rw [handle_disconnect_state_some sid now2 _
    ⟨pyStrip uraw, pyStrip braw, now⟩ alookup_aupdate_self]
  constructor
  · show aerase (aupdate s.active_users sid
      ⟨pyStrip uraw, pyStrip braw, now⟩) sid = s.active_users
    rw [aupdate_of_none _ hfresh, aerase_append_of_none hfresh]
    simp [aerase]
  · show removeFromRoom sid (pyStrip braw)
      (aupdate (ensureRoom (pyStrip braw) s.chat_rooms) (pyStrip braw)
        (mB ++ [sid])) = _
    rw [removeFromRoom_eq_mem alookup_aupdate_self
      (by simp : sid ∈ mB ++ [sid])]
    rw [List.erase_append_right _ hsidB,
      show List.erase [sid] sid = [] by simp, List.append_nil,
      aupdate_aupdate]
    rcases horig with hB | ⟨hnone, rfl⟩
    · rw [ensureRoom_eq_some hB, aupdate_self hB,
        if_pos (List.mem_map.mpr ⟨(pyStrip braw, mB), alookup_mem hB, rfl⟩)]
    · rw [if_neg (alookup_eq_none.mp hnone)]
      rw [aupdate_self halkB]
      simp [ensureRoom, hnone]

/-- Witness for the amended C5: the fresh connection 1 joins the existing
room "tech" from the initial state and disconnects; both structures are
exactly restored. -/
theorem C5_amended_join_disconnect_witness :
    (handle_disconnect 1 "t1"
        (handle_join 1 (some "alice") (some "tech") "t0"
          initialState).1).1.active_users = initialState.active_users ∧
    (handle_disconnect 1 "t1"
        (handle_join 1 (some "alice") (some "tech") "t0"
          initialState).1).1.chat_rooms =
      (if pyStrip "tech" ∈ initialState.chat_rooms.map Prod.fst then
        initialState.chat_rooms
       else initialState.chat_rooms ++ [(pyStrip "tech", [])]) :=
  C5_amended_join_disconnect initialState 1 "alice" "tech" "t0" "t1"
    (by decide) (by decide) (by decide)

end OllamaChat
